import Mathlib

/-!
Verification of the Flynn HTTP router core (route table, host lookup with
wildcard fallback, sticky-session cookie codec, backend selection, and the
controller's management-API auth gate), shallowly embedded from the Go source.

Strings from the Go code (`string`) are modelled as `List Char`; Go maps
(`map[string]*T`) are modelled as association lists with overwrite-on-insert
semantics; bytes (`[]byte`) are modelled as `List Nat`.
-/

/-- Go `string`, modelled as its list of characters. -/
abbrev Str : Type := List Char

/-- Characters of a Lean string literal, used to write concrete Go strings. -/
def strOf (s : String) : Str := s.data

/-- ASCII lowercase of one character (the fragment of Go `strings.ToLower`
relevant to domain names). -/
def lowerChar (c : Char) : Char :=
  if 'A' ≤ c ∧ c ≤ 'Z' then Char.ofNat (c.toNat + 32) else c

/-- Go `strings.ToLower` on ASCII strings. -/
def lowerStr (s : Str) : Str := s.map lowerChar

/-- Go `[]byte(s)` (byte values of a string; ASCII fragment). -/
def bytesOf (s : Str) : List Nat := s.map Char.toNat

/-- Go `string(bs)` (string from byte values; ASCII fragment). -/
def strOfBytes (bs : List Nat) : Str := bs.map Char.ofNat

theorem strOfBytes_bytesOf (s : Str) : strOfBytes (bytesOf s) = s := by
  induction s with
  | nil => rfl
  | cons c t ih => simp [strOfBytes, bytesOf] at ih ⊢; exact ih

/-! ### Go maps as association lists -/

/-- Go map read `m[k]` (with the `ok` bit as `Option`). -/
def mlookup {α : Type} (m : List (Str × α)) (k : Str) : Option α :=
  match m with
  | [] => none
  | (k', v) :: t => if k' = k then some v else mlookup t k

/-- Go `delete(m, k)`. -/
def merase {α : Type} (m : List (Str × α)) (k : Str) : List (Str × α) :=
  match m with
  | [] => []
  | (k', v) :: t => if k' = k then merase t k else (k', v) :: merase t k

/-- Go map write `m[k] = v` (overwrite). -/
def minsert {α : Type} (m : List (Str × α)) (k : Str) (v : α) : List (Str × α) :=
  (k, v) :: merase m k

theorem mlookup_merase_self {α : Type} (m : List (Str × α)) (k : Str) :
    mlookup (merase m k) k = none := by
  induction m with
  | nil => rfl
  | cons p t ih =>
    obtain ⟨k', v⟩ := p
    by_cases h : k' = k <;> simp [merase, mlookup, h, ih]

theorem mlookup_merase_ne {α : Type} (m : List (Str × α)) {k k' : Str} (h : k' ≠ k) :
    mlookup (merase m k) k' = mlookup m k' := by
  induction m with
  | nil => rfl
  | cons p t ih =>
    obtain ⟨k'', v⟩ := p
    by_cases h1 : k'' = k
    · subst h1
      have h2 := Ne.symm h
      simp [merase, mlookup, h2, ih]
    · by_cases h2 : k'' = k'
      · subst h2
        simp [merase, mlookup, h1]
      · simp [merase, mlookup, h1, h2, ih]

theorem mlookup_minsert_self {α : Type} (m : List (Str × α)) (k : Str) (v : α) :
    mlookup (minsert m k v) k = some v := by
  simp [minsert, mlookup]

theorem mlookup_minsert_ne {α : Type} (m : List (Str × α)) {k k' : Str} (v : α) (h : k' ≠ k) :
    mlookup (minsert m k v) k' = mlookup m k' := by
  simp [minsert, mlookup, Ne.symm h, mlookup_merase_ne m h]

theorem mem_merase {α : Type} {m : List (Str × α)} {k : Str} {p : Str × α} :
    p ∈ merase m k ↔ p ∈ m ∧ p.1 ≠ k := by
  induction m with
  | nil => simp [merase]
  | cons q t ih =>
    obtain ⟨k', v⟩ := q
    by_cases h : k' = k
    · subst h
      rw [show merase ((k', v) :: t) k' = merase t k' from by simp [merase]]
      rw [ih]
      simp only [List.mem_cons]
      constructor
      · rintro ⟨hm, hne⟩
        exact ⟨Or.inr hm, hne⟩
      · rintro ⟨hm | hm, hne⟩
        · rw [hm] at hne
          exact absurd rfl hne
        · exact ⟨hm, hne⟩
    · simp only [merase, if_neg h, List.mem_cons, ih]
      constructor
      · rintro (rfl | ⟨hm, hne⟩)
        · exact ⟨Or.inl rfl, h⟩
        · exact ⟨Or.inr hm, hne⟩
      · rintro ⟨rfl | hm, hne⟩
        · exact Or.inl rfl
        · exact Or.inr ⟨hm, hne⟩

theorem mem_of_mlookup {α : Type} {m : List (Str × α)} {k : Str} {v : α}
    (h : mlookup m k = some v) : (k, v) ∈ m := by
  induction m with
  | nil => simp [mlookup] at h
  | cons p t ih =>
    obtain ⟨k', v'⟩ := p
    by_cases h1 : k' = k
    · subst h1
      have h2 : v' = v := by simpa [mlookup] using h
      rw [← h2]
      exact List.mem_cons_self _ _
    · simp only [mlookup, if_neg h1] at h
      exact List.mem_cons_of_mem _ (ih h)

/-- Keys of an association list are pairwise distinct. -/
def keysNodup {α : Type} (m : List (Str × α)) : Prop :=
  (m.map Prod.fst).Nodup

theorem keysNodup_nil {α : Type} : keysNodup ([] : List (Str × α)) := by
  simp [keysNodup]

theorem keysNodup_merase {α : Type} {m : List (Str × α)} (k : Str)
    (h : keysNodup m) : keysNodup (merase m k) := by
  induction m with
  | nil => simpa [merase] using h
  | cons p t ih =>
    obtain ⟨k', v⟩ := p
    simp only [keysNodup, List.map_cons, List.nodup_cons] at h
    by_cases h1 : k' = k
    · exact (by simpa [merase, h1] using ih h.2)
    · simp only [keysNodup, merase, if_neg h1, List.map_cons, List.nodup_cons]
      refine ⟨fun hc => h.1 ?_, ih h.2⟩
      rcases List.mem_map.1 hc with ⟨q, hq, hk⟩
      exact List.mem_map.2 ⟨q, (mem_merase.1 hq).1, hk⟩

theorem keysNodup_minsert {α : Type} {m : List (Str × α)} (k : Str) (v : α)
    (h : keysNodup m) : keysNodup (minsert m k v) := by
  simp only [keysNodup, minsert, List.map_cons, List.nodup_cons]
  refine ⟨fun hc => ?_, keysNodup_merase k h⟩
  rcases List.mem_map.1 hc with ⟨q, hq, hk⟩
  exact (mem_merase.1 hq).2 (by simpa using hk)

theorem mlookup_of_mem {α : Type} {m : List (Str × α)} {p : Str × α}
    (hn : keysNodup m) (hm : p ∈ m) : mlookup m p.1 = some p.2 := by
  induction m with
  | nil => simp at hm
  | cons q t ih =>
    obtain ⟨k', v'⟩ := q
    simp only [keysNodup, List.map_cons, List.nodup_cons] at hn
    rcases List.mem_cons.1 hm with rfl | hm'
    · simp [mlookup]
    · have hne : k' ≠ p.1 := by
        intro hc
        exact hn.1 (List.mem_map.2 ⟨p, hm', hc.symm⟩)
      simpa [mlookup, hne] using ih hn.2 hm'

/-! ### Host splitting and wildcard lookup (`findRouteForHost`) -/

/-- Split a string at the first occurrence of `sep`: returns the part before
it and, when `sep` occurs, the part after it (Go `strings.Index` + slicing,
the building block of `strings.SplitN`). -/
def breakSep (sep : Char) : Str → Str × Option Str
  | [] => ([], none)
  | c :: cs =>
    if c = sep then ([], some cs)
    else
      let p := breakSep sep cs
      (c :: p.1, p.2)

/-- Go `strings.SplitN(s, sep, n)` for `n ≥ 1`: at most `n` substrings, the
last one keeping the unsplit remainder. -/
def splitNSep (sep : Char) : Nat → Str → List Str
  | 0, _ => []
  | 1, cs => [cs]
  | n + 2, cs =>
    match breakSep sep cs with
    | (_, none) => [cs]
    | (p, some r) => p :: splitNSep sep (n + 1) r

/-- Go `strings.Join(parts, sep)`. -/
def joinSep (sep : Char) : List Str → Str
  | [] => []
  | [x] => x
  | x :: xs => x ++ sep :: joinSep sep xs

/-- The string with its first `k` `sep`-separated fields removed (and
unchanged once no separator is left). Spec-side description of the wildcard
suffixes that `findRouteForHost` probes. -/
def dropFields (sep : Char) : Nat → Str → Str
  | 0, cs => cs
  | k + 1, cs =>
    match breakSep sep cs with
    | (_, none) => cs
    | (_, some r) => dropFields sep k r

/-- The wildcard keys `findRouteForHost` probes, in order, from the source:
`d := strings.SplitN(host, ".", 5)`, then for `i := len(d); i > 0; i--` the
key `"*." + strings.Join(d[len(d)-i:], ".")`. -/
def wildKeys (h : Str) : List Str :=
  let d := splitNSep '.' 5 h
  (List.range d.length).map (fun k => '*' :: '.' :: joinSep '.' (d.drop k))

/-- First successful map lookup among a list of keys (the loop body of the
wildcard search, returning on the first hit). -/
def firstHit {α : Type} (m : List (Str × α)) : List Str → Option α
  | [] => none
  | k :: ks =>
    match mlookup m k with
    | some v => some v
    | none => firstHit m ks

/-- `HTTPListener.findRouteForHost`: lowercase the host, try an exact domain
match, then wildcard keys up to 5 subdomains deep, from most-specific to
least-specific. -/
def findRouteForHost {α : Type} (host : Str) (domains : List (Str × α)) : Option α :=
  match mlookup domains (lowerStr host) with
  | some r => some r
  | none => firstHit domains (wildKeys (lowerStr host))

/-- Spec-side recursion computing the probed wildcard keys directly:
`*.` before the host, then drop one leading label at a time, at most
`fuel` keys in total. -/
def triedWildcards : Nat → Str → List Str
  | 0, _ => []
  | fuel + 1, h =>
    ('*' :: '.' :: h) ::
      (match breakSep '.' h with
       | (_, none) => []
       | (_, some r) => triedWildcards fuel r)

theorem breakSep_eq_none {sep : Char} {cs p : Str}
    (h : breakSep sep cs = (p, none)) : p = cs ∧ sep ∉ cs := by
  induction cs generalizing p with
  | nil =>
    simp only [breakSep, Prod.mk.injEq] at h
    constructor
    · exact h.1.symm
    · simp
  | cons c t ih =>
    by_cases hc : c = sep
    · simp [breakSep, hc] at h
    · simp only [breakSep, if_neg hc] at h
      match hp : breakSep sep t with
      | (q, none) =>
        rw [hp] at h
        simp only [Prod.mk.injEq] at h
        obtain ⟨rfl, hmem⟩ := ih hp
        refine ⟨h.1.symm, ?_⟩
        simp only [List.mem_cons, not_or]
        exact ⟨fun hcc => hc hcc.symm, hmem⟩
      | (q, some r') =>
        rw [hp] at h
        simp at h

theorem breakSep_eq_some {sep : Char} {cs p r : Str}
    (h : breakSep sep cs = (p, some r)) : cs = p ++ sep :: r ∧ sep ∉ p := by
  induction cs generalizing p r with
  | nil => simp [breakSep] at h
  | cons c t ih =>
    by_cases hc : c = sep
    · simp only [breakSep, if_pos hc, Prod.mk.injEq, Option.some.injEq] at h
      obtain ⟨h1, h2⟩ := h
      subst hc
      rw [← h1, ← h2]
      simp
    · simp only [breakSep, if_neg hc] at h
      match hp : breakSep sep t with
      | (q, none) =>
        rw [hp] at h
        simp at h
      | (q, some r') =>
        rw [hp] at h
        simp only [Prod.mk.injEq, Option.some.injEq] at h
        obtain ⟨h1, h2⟩ := h
        obtain ⟨ht, hnm⟩ := ih hp
        subst h2
        rw [← h1]
        constructor
        · rw [ht]; rfl
        · simp only [List.mem_cons, not_or]
          exact ⟨fun hcc => hc hcc.symm, hnm⟩

theorem splitNSep_ne_nil (sep : Char) : ∀ (f : Nat) (cs : Str), splitNSep sep (f + 1) cs ≠ [] := by
  intro f cs
  match f with
  | 0 => simp [splitNSep]
  | g + 1 =>
    show splitNSep sep (g + 2) cs ≠ []
    unfold splitNSep
    match breakSep sep cs with
    | (_, none) => simp
    | (p, some r) => simp

theorem joinSep_cons_ne_nil (sep : Char) (x : Str) {l : List Str} (h : l ≠ []) :
    joinSep sep (x :: l) = x ++ sep :: joinSep sep l := by
  match l with
  | [] => exact absurd rfl h
  | y :: t => rfl

theorem joinSep_splitNSep (sep : Char) : ∀ (f : Nat) (cs : Str),
    joinSep sep (splitNSep sep (f + 1) cs) = cs := by
  intro f
  induction f with
  | zero => intro cs; rfl
  | succ g ih =>
    intro cs
    show joinSep sep (splitNSep sep (g + 2) cs) = cs
    unfold splitNSep
    match hp : breakSep sep cs with
    | (_, none) => rfl
    | (p, some r) =>
      simp only
      rw [joinSep_cons_ne_nil sep p (splitNSep_ne_nil sep g r), ih r]
      exact (breakSep_eq_some hp).1.symm

theorem splitNSep_two_eq (sep : Char) (n : Nat) (cs : Str) :
    splitNSep sep (n + 2) cs =
      match breakSep sep cs with
      | (_, none) => [cs]
      | (p, some r) => p :: splitNSep sep (n + 1) r := rfl

theorem dropFields_succ_eq (sep : Char) (k : Nat) (cs : Str) :
    dropFields sep (k + 1) cs =
      match breakSep sep cs with
      | (_, none) => cs
      | (_, some r) => dropFields sep k r := rfl

theorem triedWildcards_succ_eq (f : Nat) (h : Str) :
    triedWildcards (f + 1) h =
      ('*' :: '.' :: h) ::
        (match breakSep '.' h with
         | (_, none) => []
         | (_, some r) => triedWildcards f r) := rfl

theorem wildcard_probe_list : ∀ (f : Nat) (cs : Str),
    (List.range (splitNSep '.' (f + 1) cs).length).map
      (fun k => '*' :: '.' :: joinSep '.' ((splitNSep '.' (f + 1) cs).drop k))
    = triedWildcards (f + 1) cs := by
  intro f
  induction f with
  | zero =>
    intro cs
    have h2 : triedWildcards 1 cs = ['*' :: '.' :: cs] := by
      rw [triedWildcards_succ_eq]
      match hp : breakSep '.' cs with
      | (q, none) => rfl
      | (q, some r) => rfl
    rw [show splitNSep '.' 1 cs = [cs] from rfl, h2]
    rfl
  | succ g ih =>
    intro cs
    match hp : breakSep '.' cs with
    | (q, none) =>
      have h1 : splitNSep '.' (g + 2) cs = [cs] := by rw [splitNSep_two_eq, hp]
      have h2 : triedWildcards (g + 2) cs = ['*' :: '.' :: cs] := by
        rw [triedWildcards_succ_eq, hp]
      rw [h1, h2]
      rfl
    | (p, some r) =>
      have h1 : splitNSep '.' (g + 2) cs = p :: splitNSep '.' (g + 1) r := by
        rw [splitNSep_two_eq, hp]
      have h2 : triedWildcards (g + 2) cs = ('*' :: '.' :: cs) :: triedWildcards (g + 1) r := by
        rw [triedWildcards_succ_eq, hp]
      rw [h1, h2]
      simp only [List.length_cons, List.range_succ_eq_map, List.map_cons, List.map_map,
        List.drop_zero]
      congr 1
      · rw [joinSep_cons_ne_nil '.' p (splitNSep_ne_nil '.' g r)]
        rw [joinSep_splitNSep '.' g r]
        rw [← (breakSep_eq_some hp).1]
      · rw [← ih r]
        apply List.map_congr_left
        intro a _
        rfl

theorem wildKeys_eq_triedWildcards (h : Str) : wildKeys h = triedWildcards 5 h :=
  wildcard_probe_list 4 h

theorem count_of_breakSep_some {sep : Char} {cs p r : Str}
    (h : breakSep sep cs = (p, some r)) : cs.count sep = r.count sep + 1 := by
  obtain ⟨h1, h2⟩ := breakSep_eq_some h
  rw [h1]
  rw [List.count_append, List.count_cons]
  have : p.count sep = 0 := List.count_eq_zero.2 h2
  simp [this]

theorem triedWildcards_spec : ∀ (f : Nat) (cs : Str),
    triedWildcards f cs =
      (List.range (min (cs.count '.' + 1) f)).map (fun k => '*' :: '.' :: dropFields '.' k cs) := by
  intro f
  induction f with
  | zero => intro cs; simp [triedWildcards]
  | succ g ih =>
    intro cs
    match hp : breakSep '.' cs with
    | (q, none) =>
      have hc : cs.count '.' = 0 := List.count_eq_zero.2 (breakSep_eq_none hp).2
      have h2 : triedWildcards (g + 1) cs = ['*' :: '.' :: cs] := by
        rw [triedWildcards_succ_eq, hp]
      rw [h2, hc]
      rw [show min (0 + 1) (g + 1) = 1 by omega]
      rfl
    | (p, some r) =>
      have hc : cs.count '.' = r.count '.' + 1 := count_of_breakSep_some hp
      have hmin : min (cs.count '.' + 1) (g + 1) = min (r.count '.' + 1) g + 1 := by
        rw [hc]; omega
      have h2 : triedWildcards (g + 1) cs = ('*' :: '.' :: cs) :: triedWildcards g r := by
        rw [triedWildcards_succ_eq, hp]
      rw [h2, hmin, List.range_succ_eq_map, List.map_cons, List.map_map]
      congr 1
      · rw [ih r]
        apply List.map_congr_left
        intro a _
        simp only [Function.comp]
        rw [show dropFields '.' (a + 1) cs = dropFields '.' a r from by
          rw [dropFields_succ_eq, hp]]

/-- Unfolding of `findRouteForHost` through the direct wildcard-key recursion. -/
theorem findRouteForHost_eq {α : Type} (host : Str) (d : List (Str × α)) :
    findRouteForHost host d =
      match mlookup d (lowerStr host) with
      | some r => some r
      | none => firstHit d (triedWildcards 5 (lowerStr host)) := by
  unfold findRouteForHost
  rw [wildKeys_eq_triedWildcards]


/-! ### Route table state and the sync handler (`httpSyncHandler.Set` / `Remove`)

The TLS key-pair parsing, the `closed` early return, and the
`discoverd.NewServiceSet` error path are orthogonal to the table invariants
and are elided: `hSet` models a successful `Set` on an open listener, `hRemove`
a `Remove` on an open listener. A Go `*httpService` pointer is identified by
its service name: entries are only ever stored in `services` under their own
name, and an entry is deleted exactly when no live route points at it keeps
names unambiguous for every state the handlers can produce. -/

/-- `httpService`: the name and refcount of a service entry (the `ServiceSet`
handle and cookie key carry no table state). -/
structure SvcEntry where
  name : Str
  refs : Int
deriving DecidableEq

/-- `httpRoute`: the fields of a stored route that the table logic reads
(`data.ID`, `HTTPRoute.Domain`, `HTTPRoute.Service`; `service` pointer is the
name of the linked `SvcEntry`). -/
structure RtEntry where
  id : Str
  domain : Str
  service : Str
deriving DecidableEq

/-- The mutable state of `HTTPListener`: `routes` (by ID), `domains`
(by lowercased domain), `services` (by service name). -/
structure LState where
  routes : List (Str × RtEntry)
  domains : List (Str × RtEntry)
  services : List (Str × SvcEntry)
deriving DecidableEq

/-- The maps as initialized by `HTTPListener.Start`. -/
def initState : LState := ⟨[], [], []⟩

/-- `httpSyncHandler.Set` for a route `{ID: rid, Domain: rdomain, Service:
rservice}`:
look up `services[r.Service]`; if the entry exists and its name differs from
`r.Service`, decrement it and tear it down at zero (the branch the source
guards with `service.name != r.Service`); create the entry if absent;
increment its refcount; store the route in `routes[data.ID]` and
`domains[strings.ToLower(r.Domain)]`. -/
def hSet (st : LState) (rid rdomain rservice : Str) : LState :=
  let step1 : List (Str × SvcEntry) × Option SvcEntry :=
    match mlookup st.services rservice with
    | some e =>
      if e.name ≠ rservice then
        (if e.refs - 1 ≤ 0 then merase st.services e.name
         else minsert st.services e.name ⟨e.name, e.refs - 1⟩, none)
      else (st.services, some e)
    | none => (st.services, none)
  let step2 : List (Str × SvcEntry) × SvcEntry :=
    match step1.2 with
    | some e => (step1.1, e)
    | none => (minsert step1.1 rservice ⟨rservice, 0⟩, ⟨rservice, 0⟩)
  let r : RtEntry := ⟨rid, rdomain, rservice⟩
  { routes := minsert st.routes rid r
    domains := minsert st.domains (lowerStr rdomain) r
    services := minsert step2.1 rservice ⟨rservice, step2.2.refs + 1⟩ }

/-- `httpSyncHandler.Remove(id)`: `ErrNotFound` (`none`) when the ID is
absent; otherwise decrement the route's service entry (tearing it down at
zero), then delete `routes[id]` and `domains[r.Domain]` — the domain key is
**not** lowercased here, exactly as in the source. -/
def hRemove (st : LState) (rid : Str) : Option LState :=
  match mlookup st.routes rid with
  | none => none
  | some r =>
    let services' :=
      match mlookup st.services r.service with
      | none => st.services
      | some e =>
        if e.refs - 1 ≤ 0 then merase st.services e.name
        else minsert st.services r.service ⟨e.name, e.refs - 1⟩
    some { routes := merase st.routes rid
           domains := merase st.domains r.domain
           services := services' }

/-- Number of routes in the table that reference a given service entry. -/
def svcRefCount (st : LState) (name : Str) : Nat :=
  (st.routes.filter (fun p => p.2.service = name)).length

/-- Executable statement of spec invariant 1: every route stored under a
domain key is stored in the ID map under its own ID, and every route stored
under an ID is stored in the domain map under its lowercased domain. -/
def invCheck (st : LState) : Bool :=
  st.domains.all (fun p => mlookup st.routes p.2.id = some p.2) &&
    st.routes.all (fun p => mlookup st.domains (lowerStr p.2.domain) = some p.2)

/-- Guard for the well-behaved mutation sequences of the amended C3: the
domain written by a `Set` is already lowercase, agrees with the domain any
existing route of the same ID carries, and differs from every other route's
domain (which the public `AddRoute`/`SetRoute` API enforces via
`ID = md5_hex(domain)`). -/
def okSet (st : LState) (rid rdomain : Str) : Bool :=
  (lowerStr rdomain = rdomain : Bool) &&
    st.routes.all (fun p =>
      if p.1 = rid then p.2.domain = rdomain else ¬(p.2.domain = rdomain))

/-- Route-table states reachable by sync-handler `Set`s that satisfy `okSet`
and by successful `Remove`s. -/
inductive ReachLC : LState → Prop
  | init : ReachLC initState
  | set (st : LState) (rid rdomain rservice : Str) (h : ReachLC st)
      (hok : okSet st rid rdomain = true) : ReachLC (hSet st rid rdomain rservice)
  | rem (st : LState) (rid : Str) (st' : LState) (h : ReachLC st)
      (hr : hRemove st rid = some st') : ReachLC st'

theorem hSet_routes (st : LState) (rid rdomain rservice : Str) :
    (hSet st rid rdomain rservice).routes =
      minsert st.routes rid ⟨rid, rdomain, rservice⟩ := rfl

theorem hSet_domains (st : LState) (rid rdomain rservice : Str) :
    (hSet st rid rdomain rservice).domains =
      minsert st.domains (lowerStr rdomain) ⟨rid, rdomain, rservice⟩ := rfl

theorem hRemove_eq {st : LState} {rid : Str} {st' : LState}
    (h : hRemove st rid = some st') :
    ∃ r0, mlookup st.routes rid = some r0 ∧
      st'.routes = merase st.routes rid ∧
      st'.domains = merase st.domains r0.domain := by
  unfold hRemove at h
  match hm : mlookup st.routes rid with
  | none =>
    rw [hm] at h
    simp at h
  | some r0 =>
    rw [hm] at h
    simp only [Option.some.injEq] at h
    refine ⟨r0, rfl, ?_, ?_⟩
    · rw [← h]
    · rw [← h]

/-- Inductive invariant for the amended C3: distinct keys, every route keyed
by its own ID, stored domains are lowercase, and the two maps mirror each
other. -/
def InvP (st : LState) : Prop :=
  keysNodup st.routes ∧ keysNodup st.domains ∧
  (∀ k r, mlookup st.routes k = some r →
    r.id = k ∧ lowerStr r.domain = r.domain ∧ mlookup st.domains r.domain = some r) ∧
  (∀ k r, mlookup st.domains k = some r →
    k = r.domain ∧ mlookup st.routes r.id = some r)

theorem okSet_spec {st : LState} {rid rdomain : Str}
    (h : okSet st rid rdomain = true) :
    lowerStr rdomain = rdomain ∧
      ∀ p ∈ st.routes, (p.1 = rid → p.2.domain = rdomain) ∧
        (p.1 ≠ rid → p.2.domain ≠ rdomain) := by
  simp only [okSet, Bool.and_eq_true, List.all_eq_true, decide_eq_true_eq] at h
  obtain ⟨h1, h2⟩ := h
  refine ⟨h1, fun p hp => ?_⟩
  have hx := h2 p hp
  by_cases hc : p.1 = rid
  · simp only [if_pos hc, decide_eq_true_eq] at hx
    exact ⟨fun _ => hx, fun hne => absurd hc hne⟩
  · simp only [if_neg hc, decide_eq_true_eq] at hx
    exact ⟨fun hcc => absurd hcc hc, fun _ => hx⟩

theorem InvP_init : InvP initState := by
  refine ⟨keysNodup_nil, keysNodup_nil, ?_, ?_⟩ <;>
    (intro k r h; simp [initState, mlookup] at h)

theorem InvP_hSet {st : LState} (rid rdomain rservice : Str)
    (hinv : InvP st) (hok : okSet st rid rdomain = true) :
    InvP (hSet st rid rdomain rservice) := by
  obtain ⟨hnr, hnd, hroutes, hdomains⟩ := hinv
  obtain ⟨hlc, hall⟩ := okSet_spec hok
  refine ⟨?_, ?_, ?_, ?_⟩
  · rw [hSet_routes]
    exact keysNodup_minsert _ _ hnr
  · rw [hSet_domains]
    exact keysNodup_minsert _ _ hnd
  · intro k r h
    rw [hSet_routes] at h
    rw [hSet_domains, hlc]
    by_cases hk : k = rid
    · subst hk
      rw [mlookup_minsert_self] at h
      obtain rfl := Option.some.injEq .. ▸ h.symm
      exact ⟨rfl, hlc, by rw [mlookup_minsert_self]⟩
    · rw [mlookup_minsert_ne _ _ hk] at h
      obtain ⟨hid, hl, hd⟩ := hroutes k r h
      have hmem := mem_of_mlookup h
      have hne : r.domain ≠ rdomain := (hall (k, r) hmem).2 hk
      exact ⟨hid, hl, by rw [mlookup_minsert_ne _ _ hne]; exact hd⟩
  · intro k r h
    rw [hSet_domains, hlc] at h
    rw [hSet_routes]
    by_cases hk : k = rdomain
    · subst hk
      rw [mlookup_minsert_self] at h
      obtain rfl := Option.some.injEq .. ▸ h.symm
      exact ⟨rfl, by rw [mlookup_minsert_self]⟩
    · rw [mlookup_minsert_ne _ _ hk] at h
      obtain ⟨hkd, hr⟩ := hdomains k r h
      have hmem := mem_of_mlookup hr
      have hne : r.id ≠ rid := by
        intro hc
        have := (hall (r.id, r) hmem).1 hc
        exact hk (hkd.trans this)
      exact ⟨hkd, by rw [mlookup_minsert_ne _ _ hne]; exact hr⟩

theorem InvP_hRemove {st : LState} {rid : Str} {st' : LState}
    (hinv : InvP st) (h : hRemove st rid = some st') : InvP st' := by
  obtain ⟨hnr, hnd, hroutes, hdomains⟩ := hinv
  obtain ⟨r0, hm0, hrz, hdz⟩ := hRemove_eq h
  obtain ⟨hid0, hl0, hd0⟩ := hroutes rid r0 hm0
  refine ⟨?_, ?_, ?_, ?_⟩
  · rw [hrz]; exact keysNodup_merase _ hnr
  · rw [hdz]; exact keysNodup_merase _ hnd
  · intro k r h1
    rw [hrz] at h1
    rw [hdz]
    by_cases hk : k = rid
    · subst hk
      rw [mlookup_merase_self] at h1
      exact absurd h1 (by simp)
    · rw [mlookup_merase_ne _ hk] at h1
      obtain ⟨hid, hl, hd⟩ := hroutes k r h1
      have hne : r.domain ≠ r0.domain := by
        intro hc
        rw [hc] at hd
        rw [hd0] at hd
        obtain rfl := Option.some.injEq .. ▸ hd.symm
        exact hk (hid.symm.trans hid0 ▸ rfl)
      exact ⟨hid, hl, by rw [mlookup_merase_ne _ hne]; exact hd⟩
  · intro k r h1
    rw [hdz] at h1
    rw [hrz]
    by_cases hk : k = r0.domain
    · subst hk
      rw [mlookup_merase_self] at h1
      exact absurd h1 (by simp)
    · rw [mlookup_merase_ne _ hk] at h1
      obtain ⟨hkd, hr⟩ := hdomains k r h1
      have hne : r.id ≠ rid := by
        intro hc
        rw [hc, hm0] at hr
        obtain rfl := Option.some.injEq .. ▸ hr.symm
        exact hk hkd
      exact ⟨hkd, by rw [mlookup_merase_ne _ hne]; exact hr⟩

theorem invCheck_of_InvP {st : LState} (hinv : InvP st) : invCheck st = true := by
  obtain ⟨hnr, hnd, hroutes, hdomains⟩ := hinv
  simp only [invCheck, Bool.and_eq_true, List.all_eq_true, decide_eq_true_eq]
  constructor
  · intro p hp
    have hl := mlookup_of_mem hnd hp
    exact (hdomains p.1 p.2 hl).2
  · intro p hp
    have hl := mlookup_of_mem hnr hp
    obtain ⟨hid, hlc, hd⟩ := hroutes p.1 p.2 hl
    rw [hlc]
    exact hd

/-! ### Sticky cookie codec and backend selection
(`pickBackend`, `pickNewBackendSticky`, `pickBackendSticky`)

`nacl/secretbox` and `encoding/base64` are vendored/standard-library
collaborators, not code under `src/`; they are modelled from the spec as
abstract structures carrying exactly the properties the spec assigns them. -/

/-- Modelled from the spec: the missing `nacl/secretbox` primitive — an
authenticated symmetric-encryption scheme ("XSalsa20 + Poly1305, or
equivalent"): opening a genuine box yields the message, only genuine boxes
open (authentication), and a box binds its key and nonce. Keys, nonces and
payloads are byte lists. -/
structure SecretBox where
  boxSeal : List Nat → List Nat → List Nat → List Nat
  openBox : List Nat → List Nat → List Nat → Option (List Nat)
  open_seal : ∀ k n m, openBox k n (boxSeal k n m) = some m
  seal_of_open : ∀ k n c m, openBox k n c = some m → c = boxSeal k n m
  seal_binds : ∀ k k' n n' m m', boxSeal k n m = boxSeal k' n' m' → k = k' ∧ n = n'

/-- Modelled from the spec: the missing `encoding/base64` codec — an
injective encoding of byte lists into cookie values (`V`) whose decode
inverts encode and fails on non-codewords. -/
structure ByteCodec (V : Type) where
  encode : List Nat → V
  decode : V → Option (List Nat)
  decode_encode : ∀ bs, decode (encode bs) = some bs

/-- `http.Cookie` (the fields the router sets). -/
structure Cookie (V : Type) where
  name : Str
  value : V
  path : Str
deriving DecidableEq

/-- `httpService.pickBackend`: empty string when no live backend, else a
uniformly random element of the `Addrs()` snapshot (the random draw
`random.Math.Intn(len(addrs))` is passed in as `rnd` and reduced mod the
length). -/
def pickBackend (addrs : List Str) (rnd : Nat) : Str :=
  if addrs.length = 0 then [] else addrs.getD (rnd % addrs.length) []

/-- `httpService.pickNewBackendSticky`: pick a backend; when one exists,
seal its address under the service cookie key with a fresh 24-byte nonce
(passed in as `nonce`) and return the backend together with a
`Set-Cookie: _backend=<base64(nonce ‖ box)>; Path=/` directive. -/
def pickNewBackendSticky {V : Type} (sb : SecretBox) (b : ByteCodec V)
    (key nonce : List Nat) (addrs : List Str) (rnd : Nat) : Str × Option (Cookie V) :=
  let backend := pickBackend addrs rnd
  if backend = [] then ([], none)
  else
    (backend,
      some ⟨strOf "_backend",
            b.encode (nonce ++ sb.boxSeal key nonce (bytesOf backend)),
            strOf "/"⟩)

/-- `httpService.pickBackendSticky`: when the request carries a `_backend`
cookie (`cookie`), base64-decode it, require at least the 24-byte nonce,
split nonce ‖ ciphertext, authenticate-decrypt, and require the decoded
address to be in the current `Addrs()` snapshot; on success return it with
no new cookie, on any failure fall back to `pickNewBackendSticky`. -/
def pickBackendSticky {V : Type} (sb : SecretBox) (b : ByteCodec V)
    (key nonce : List Nat) (addrs : List Str) (rnd : Nat)
    (cookie : Option V) : Str × Option (Cookie V) :=
  match cookie with
  | none => pickNewBackendSticky sb b key nonce addrs rnd
  | some v =>
    match b.decode v with
    | none => pickNewBackendSticky sb b key nonce addrs rnd
    | some data =>
      if data.length < 24 then pickNewBackendSticky sb b key nonce addrs rnd
      else
        match sb.openBox key (data.take 24) (data.drop 24) with
        | none => pickNewBackendSticky sb b key nonce addrs rnd
        | some res =>
          if strOfBytes res ∈ addrs then (strOfBytes res, none)
          else pickNewBackendSticky sb b key nonce addrs rnd

theorem pickBackend_mem {addrs : List Str} (rnd : Nat) (h : addrs ≠ []) :
    pickBackend addrs rnd ∈ addrs := by
  have hlen : addrs.length ≠ 0 := fun hc => h (List.length_eq_zero.1 hc)
  have hlt : rnd % addrs.length < addrs.length :=
    Nat.mod_lt _ (Nat.pos_of_ne_zero hlen)
  rw [pickBackend, if_neg hlen]
  rw [List.getD_eq_getElem _ _ hlt]
  exact List.getElem_mem _

/-- Concrete `SecretBox` instance: the box is `|k| :: k ++ |n| :: n ++ m`,
and opening checks the `|k| :: k ++ |n| :: n` header. It satisfies every
`SecretBox` law and makes the cookie pipeline fully executable in witnesses. -/
def toySeal (k n m : List Nat) : List Nat :=
  k.length :: (k ++ n.length :: (n ++ m))

/-- Opener for `toySeal`. -/
def toyOpen (k n c : List Nat) : Option (List Nat) :=
  if c.take (k.length + n.length + 2) = k.length :: (k ++ n.length :: n) then
    some (c.drop (k.length + n.length + 2))
  else none

theorem toySeal_split (k n m : List Nat) :
    toySeal k n m = (k.length :: (k ++ n.length :: n)) ++ m ∧
      (k.length :: (k ++ n.length :: n)).length = k.length + n.length + 2 := by
  constructor
  · simp [toySeal]
  · simp
    omega

theorem toyOpen_toySeal (k n m : List Nat) : toyOpen k n (toySeal k n m) = some m := by
  obtain ⟨h1, h2⟩ := toySeal_split k n m
  rw [toyOpen, h1, ← h2]
  rw [List.take_left, List.drop_left]
  simp

theorem toySeal_of_toyOpen (k n c m : List Nat) (h : toyOpen k n c = some m) :
    c = toySeal k n m := by
  rw [toyOpen] at h
  by_cases hc : c.take (k.length + n.length + 2) = k.length :: (k ++ n.length :: n)
  · rw [if_pos hc] at h
    obtain rfl := Option.some.injEq .. ▸ h.symm
    obtain ⟨h1, h2⟩ := toySeal_split k n (c.drop (k.length + n.length + 2))
    rw [h1, ← hc]
    exact (List.take_append_drop _ c).symm
  · rw [if_neg hc] at h
    exact absurd h (by simp)

theorem toySeal_binds (k k' n n' m m' : List Nat)
    (h : toySeal k n m = toySeal k' n' m') : k = k' ∧ n = n' := by
  simp only [toySeal, List.cons.injEq] at h
  obtain ⟨hlen, happ⟩ := h
  obtain ⟨hk, hrest⟩ := List.append_inj happ hlen
  simp only [List.cons.injEq] at hrest
  obtain ⟨hnlen, happ2⟩ := hrest
  obtain ⟨hn, _⟩ := List.append_inj happ2 hnlen
  exact ⟨hk, hn⟩

/-- The executable `SecretBox` used by witnesses. -/
def toyBox : SecretBox where
  boxSeal := toySeal
  openBox := toyOpen
  open_seal := toyOpen_toySeal
  seal_of_open := toySeal_of_toyOpen
  seal_binds := toySeal_binds

/-- The executable `ByteCodec` used by witnesses: values are
`Option (List Nat)`, encoding is `some`, decoding is the identity (so `none`
is a value that fails to decode). -/
def toyCodec : ByteCodec (Option (List Nat)) where
  encode := some
  decode := id
  decode_encode := fun _ => rfl

/-! ### Request serving (`HTTPListener.ServeHTTP` / `httpService.ServeHTTP`) -/

/-- The per-route data `httpService.ServeHTTP` consumes: the route's sticky
flag and the service's `Addrs()` snapshot. -/
structure VRoute where
  sticky : Bool
  addrs : List Str
deriving DecidableEq

/-- Outcome of serving one request (the aspects C8 talks about). -/
inductive Resp where
  | notFound
  | unavailable
  | proxied (backend : Str)
deriving DecidableEq

/-- `httpService.ServeHTTP`: select a backend — the sticky branch iff the
listener set `Flynn-Use-Sticky-Sessions` — and answer
`503 Service Unavailable` when none is found; otherwise proxy to it. -/
def serveRoute {V : Type} (sb : SecretBox) (b : ByteCodec V)
    (key nonce : List Nat) (rnd : Nat) (cookie : Option V) (r : VRoute) : Resp :=
  let backend :=
    if r.sticky then (pickBackendSticky sb b key nonce r.addrs rnd cookie).1
    else pickBackend r.addrs rnd
  if backend = [] then Resp.unavailable else Resp.proxied backend

/-- `HTTPListener.ServeHTTP`: look the host up in the route table and answer
`404 Not Found` on a miss; otherwise hand off to the route's service. -/
def listenerServeHTTP {V : Type} (sb : SecretBox) (b : ByteCodec V)
    (key nonce : List Nat) (rnd : Nat) (cookie : Option V)
    (domains : List (Str × VRoute)) (host : Str) : Resp :=
  match findRouteForHost host domains with
  | none => Resp.notFound
  | some r => serveRoute sb b key nonce rnd cookie r

theorem pickNewBackendSticky_nil {V : Type} (sb : SecretBox) (b : ByteCodec V)
    (key nonce : List Nat) (rnd : Nat) :
    pickNewBackendSticky sb b key nonce [] rnd = ([], none) := by
  simp [pickNewBackendSticky, pickBackend]

theorem pickBackendSticky_nil_fst {V : Type} (sb : SecretBox) (b : ByteCodec V)
    (key nonce : List Nat) (rnd : Nat) (cookie : Option V) :
    (pickBackendSticky sb b key nonce [] rnd cookie).1 = [] := by
  match cookie with
  | none => simp [pickBackendSticky, pickNewBackendSticky_nil]
  | some v =>
    cases hd : b.decode v with
    | none => simp [pickBackendSticky, hd, pickNewBackendSticky_nil]
    | some data =>
      by_cases hl : data.length < 24
      · simp [pickBackendSticky, hd, hl, pickNewBackendSticky_nil]
      · cases ho : sb.openBox key (data.take 24) (data.drop 24) with
        | none => simp [pickBackendSticky, hd, hl, ho, pickNewBackendSticky_nil]
        | some res => simp [pickBackendSticky, hd, hl, ho, pickNewBackendSticky_nil]

/-! ### Management-API auth (`muxHandler` / `parseBasicAuth`) -/

/-- Go `strings.Contains`. -/
def hasSubstr : Str → Str → Bool
  | [], sub => sub.isEmpty
  | c :: t, sub => sub.isPrefixOf (c :: t) || hasSubstr t sub

/-- `parseBasicAuth(h)`: split the `Authorization` value on `" "` (limit 2),
require scheme `Basic`, base64-decode the credentials (`dec` abstracts the
standard base64 decoder), split on `":"` (limit 2), return user and
password; `none` on any failure (the caller then has password `""`). -/
def parseBasicAuth (dec : Str → Option (List Nat)) (authorization : Str) :
    Option (Str × Str) :=
  match splitNSep ' ' 2 authorization with
  | [s0, s1] =>
    if s0 = strOf "Basic" then
      match dec s1 with
      | none => none
      | some c =>
        match splitNSep ':' 2 (strOfBytes c) with
        | [u, p] => some (u, p)
        | _ => none
    else none
  | _ => none

/-- The fields of a management-API request that `muxHandler` reads. -/
structure AuthReq where
  method : Str
  path : Str
  accept : Str
  queryKey : Str
  authorization : Str
deriving DecidableEq

/-- Outcome of the auth gate. -/
inductive AuthResp where
  | ok200
  | unauthorized401
  | handled
deriving DecidableEq

/-- The password `muxHandler` ends up comparing: the basic-auth password
(empty on parse failure), replaced by the `?key=` query parameter when it is
empty and the client accepts `text/event-stream`. -/
def effPassword (dec : Str → Option (List Nat)) (req : AuthReq) : Str :=
  let p :=
    match parseBasicAuth dec req.authorization with
    | some q => q.2
    | none => []
  if p = [] ∧ hasSubstr req.accept (strOf "text/event-stream") then req.queryKey else p

/-- `muxHandler`: `/ping` and `OPTIONS` answer 200 before auth; otherwise the
effective password is compared against the configured key (length check plus
`subtle.ConstantTimeCompare`, together equivalent to equality), `401` on
mismatch, and the request reaches the main handler on success. -/
def muxHandler (dec : Str → Option (List Nat)) (authKey : Str) (req : AuthReq) : AuthResp :=
  if req.path = strOf "/ping" ∨ req.method = strOf "OPTIONS" then AuthResp.ok200
  else
    let password := effPassword dec req
    if password.length ≠ authKey.length ∨ ¬(password = authKey) then AuthResp.unauthorized401
    else AuthResp.handled

/-! ### Claim theorems -/

theorem firstHit_cons {α : Type} (m : List (Str × α)) (k : Str) (ks : List Str) :
    firstHit m (k :: ks) =
      match mlookup m k with
      | some v => some v
      | none => firstHit m ks := rfl

/-- C1: evaluation of the sync handler at the failing input. Two `Set` calls
with the identical route `{ID: "i", Domain: "d", Service: "s"}` leave the
`"s"` service entry with refcount 2 while exactly one route in the table
references it: the `service.name != r.Service` guard compares the entry
stored under the *new* name against the new name, so the reference held by
the overwritten route is never decremented, contradicting the invariant the
claim states. -/
theorem set_update_double_counts_service_refs :
    mlookup (hSet (hSet initState (strOf "i") (strOf "d") (strOf "s"))
        (strOf "i") (strOf "d") (strOf "s")).services (strOf "s")
      = some ⟨strOf "s", 2⟩ ∧
    svcRefCount (hSet (hSet initState (strOf "i") (strOf "d") (strOf "s"))
        (strOf "i") (strOf "d") (strOf "s")) (strOf "s") = 1 := by
  decide

/-- C2: evaluation at the failing input. `Set` stores the route under the
lowercased domain key `"foo.com"`, but `Remove` deletes `domains[r.Domain]`
with the unlowered `"Foo.com"`; the `Remove` succeeds (returns `some`), yet
`findRouteForHost "Foo.com"` still returns the removed route. -/
theorem remove_leaves_stale_domain_entry :
    (hRemove (hSet initState (strOf "i") (strOf "Foo.com") (strOf "s"))
        (strOf "i")).map (fun st' => findRouteForHost (strOf "Foo.com") st'.domains)
      = some (some ⟨strOf "i", strOf "Foo.com", strOf "s"⟩) := by
  decide

/-- C3 counterexample: after the sync-handler sequence
`Set {ID:"1", Domain:"x", Service:"s"}; Set {ID:"2", Domain:"x", Service:"s"}`
the ID map holds two routes but the domain map holds only the second, so the
two maps do not contain the same routes — the claim fails for arbitrary
`Set`/`Remove` sequences. -/
theorem routes_domains_maps_disagree_cex :
    invCheck (hSet (hSet initState (strOf "1") (strOf "x") (strOf "s"))
        (strOf "2") (strOf "x") (strOf "s")) = false ∧
    mlookup (hSet (hSet initState (strOf "1") (strOf "x") (strOf "s"))
        (strOf "2") (strOf "x") (strOf "s")).routes (strOf "1")
      = some ⟨strOf "1", strOf "x", strOf "s"⟩ ∧
    (hSet (hSet initState (strOf "1") (strOf "x") (strOf "s"))
        (strOf "2") (strOf "x") (strOf "s")).domains
      = [(strOf "x", ⟨strOf "2", strOf "x", strOf "s"⟩)] := by
  decide

/-- C3 (amended): in every state reachable by sync-handler `Set`s whose
domains are lowercase and assigned consistently and injectively to route IDs
(`okSet`, which the public API guarantees via `ID = md5_hex(domain)`) and by
successful `Remove`s, the domain map and the ID map contain exactly the same
routes: every route stored under a domain key is stored under its ID, and
every route stored under an ID is stored under its lowercased domain. -/
theorem routes_domains_maps_agree_of_reachable (st : LState) (h : ReachLC st) :
    invCheck st = true := by
  have hinv : InvP st := by
    induction h with
    | init => exact InvP_init
    | set st rid rdomain rservice _ hok ih => exact InvP_hSet rid rdomain rservice ih hok
    | rem st rid st' _ hr ih => exact InvP_hRemove ih hr
  exact invCheck_of_InvP hinv

/-- Witness for the amended C3 at a concrete reachable state. -/
theorem routes_domains_maps_agree_of_reachable_witness :
    ReachLC ((hRemove (hSet (hSet initState (strOf "a") (strOf "x.y") (strOf "s"))
        (strOf "b") (strOf "z.y") (strOf "s")) (strOf "a")).getD initState) ∧
    invCheck ((hRemove (hSet (hSet initState (strOf "a") (strOf "x.y") (strOf "s"))
        (strOf "b") (strOf "z.y") (strOf "s")) (strOf "a")).getD initState) = true := by
  have h1 : ReachLC (hSet initState (strOf "a") (strOf "x.y") (strOf "s")) :=
    ReachLC.set initState (strOf "a") (strOf "x.y") (strOf "s") ReachLC.init (by decide)
  have h2 : ReachLC (hSet (hSet initState (strOf "a") (strOf "x.y") (strOf "s"))
      (strOf "b") (strOf "z.y") (strOf "s")) :=
    ReachLC.set _ (strOf "b") (strOf "z.y") (strOf "s") h1 (by decide)
  have h3 : ReachLC ((hRemove (hSet (hSet initState (strOf "a") (strOf "x.y") (strOf "s"))
      (strOf "b") (strOf "z.y") (strOf "s")) (strOf "a")).getD initState) := by
    refine ReachLC.rem _ (strOf "a") _ h2 ?_
    decide
  exact ⟨h3, routes_domains_maps_agree_of_reachable _ h3⟩

/-- C4 counterexample: `findRouteForHost` *does* return a wildcard deeper
than 5 levels — for the 6-segment host `a.b.c.d.e.f` the very first probe is
the 6-label-suffix key `*.a.b.c.d.e.f` — and a host with 7 segments does
*not* find the shorter, broader wildcard `*.f.g` that matches it. -/
theorem wildcard_depth_cap_cex :
    findRouteForHost (strOf "a.b.c.d.e.f")
        [(strOf "*.a.b.c.d.e.f", (⟨strOf "r1", strOf "*.a.b.c.d.e.f", strOf "s"⟩ : RtEntry))]
      = some ⟨strOf "r1", strOf "*.a.b.c.d.e.f", strOf "s"⟩ ∧
    List.count '.' (strOf "a.b.c.d.e.f") + 1 = 6 ∧
    findRouteForHost (strOf "a.b.c.d.e.f.g")
        [(strOf "*.f.g", (⟨strOf "r2", strOf "*.f.g", strOf "s"⟩ : RtEntry))] = none ∧
    List.count '.' (strOf "a.b.c.d.e.f.g") + 1 = 7 := by
  decide

/-- C4 (amended): `findRouteForHost` lowercases the host, tries an exact
match, and then probes wildcard keys `*.suffix` from most-specific to
least-specific, where the suffixes are exactly the host with its first `k`
dot-separated labels removed for `k = 0, 1, …, min(segments, 5) − 1`: at most
5 wildcard keys are probed; a host with 6 or more segments matches wildcards
obtained by dropping up to 4 leading labels (including wildcards deeper than
5 levels, up to the full host), but none dropping 5 or more. -/
theorem findRouteForHost_wildcard_probes {α : Type} (host : Str) (d : List (Str × α)) :
    findRouteForHost host d =
      (match mlookup d (lowerStr host) with
       | some r => some r
       | none => firstHit d (triedWildcards 5 (lowerStr host))) ∧
    triedWildcards 5 (lowerStr host) =
      (List.range (min (List.count '.' (lowerStr host) + 1) 5)).map
        (fun k => '*' :: '.' :: dropFields '.' k (lowerStr host)) :=
  ⟨findRouteForHost_eq host d, triedWildcards_spec 5 (lowerStr host)⟩

/-- C10: a wildcard route `*.X` is returned for the bare host `X` itself
(stated for hosts of at most 5 segments, as the claim does): the first and
most-specific wildcard key probed is `*.` prepended to the entire lowercased
host, so when no exact route for `X` exists the `*.X` route is found. -/
theorem wildcard_matches_bare_host {α : Type} (host : Str) (d : List (Str × α)) (r : α)
    (hseg : List.count '.' host + 1 ≤ 5)
    (hex : mlookup d (lowerStr host) = none)
    (hw : mlookup d ('*' :: '.' :: lowerStr host) = some r) :
    findRouteForHost host d = some r := by
  rw [findRouteForHost_eq, hex]
  rw [show triedWildcards 5 (lowerStr host) =
      ('*' :: '.' :: lowerStr host) ::
        (match breakSep '.' (lowerStr host) with
         | (_, none) => []
         | (_, some r) => triedWildcards 4 r) from rfl]
  rw [firstHit_cons, hw]

/-- Witness for C10 at the host `app.test` and table `{*.app.test ↦ 0}`. -/
theorem wildcard_matches_bare_host_witness :
    (List.count '.' (strOf "app.test") + 1 ≤ 5 ∧
      mlookup [(strOf "*.app.test", (0 : Nat))] (lowerStr (strOf "app.test")) = none ∧
      mlookup [(strOf "*.app.test", (0 : Nat))]
        ('*' :: '.' :: lowerStr (strOf "app.test")) = some 0) ∧
    findRouteForHost (strOf "app.test") [(strOf "*.app.test", (0 : Nat))] = some 0 :=
  ⟨⟨by decide, by decide, by decide⟩,
    wildcard_matches_bare_host (strOf "app.test") _ 0 (by decide) (by decide) (by decide)⟩

/-- C5: for a wildcard route `*.suffix` in the table (with lowercase
`suffix`, as `Set` stores keys), `findRouteForHost "a.b.suffix"` returns that
route if and only if no more-specific route matches the host: no exact route
for `a.b.suffix`, no `*.a.b.suffix` wildcard, and no more-specific wildcard
`*.b.suffix`. The `≠ some r` hypotheses say the more-specific slots, when
occupied, hold routes other than the `*.suffix` route itself, which is how
distinct `Set`s populate the table. -/
theorem wildcard_broadest_iff_no_more_specific
    (d : List (Str × RtEntry)) (s : Str) (r : RtEntry)
    (hs : lowerStr s = s)
    (hw : mlookup d ('*' :: '.' :: s) = some r)
    (h1 : mlookup d ('a' :: '.' :: 'b' :: '.' :: s) ≠ some r)
    (h2 : mlookup d ('*' :: '.' :: 'a' :: '.' :: 'b' :: '.' :: s) ≠ some r)
    (h3 : mlookup d ('*' :: '.' :: 'b' :: '.' :: s) ≠ some r) :
    findRouteForHost ('a' :: '.' :: 'b' :: '.' :: s) d = some r ↔
      (mlookup d ('a' :: '.' :: 'b' :: '.' :: s) = none ∧
       mlookup d ('*' :: '.' :: 'a' :: '.' :: 'b' :: '.' :: s) = none ∧
       mlookup d ('*' :: '.' :: 'b' :: '.' :: s) = none) := by
  have hs' : List.map lowerChar s = s := hs
  have hlow : lowerStr ('a' :: '.' :: 'b' :: '.' :: s) = 'a' :: '.' :: 'b' :: '.' :: s := by
    show lowerChar 'a' :: lowerChar '.' :: lowerChar 'b' :: lowerChar '.' :: List.map lowerChar s
      = 'a' :: '.' :: 'b' :: '.' :: s
    rw [hs']
    rw [show lowerChar 'a' = 'a' from by decide, show lowerChar '.' = '.' from by decide,
      show lowerChar 'b' = 'b' from by decide]
  rw [findRouteForHost_eq, hlow]
  have hkeys : triedWildcards 5 ('a' :: '.' :: 'b' :: '.' :: s)
      = ('*' :: '.' :: 'a' :: '.' :: 'b' :: '.' :: s)
        :: ('*' :: '.' :: 'b' :: '.' :: s) :: triedWildcards 3 s := rfl
  cases hx : mlookup d ('a' :: '.' :: 'b' :: '.' :: s) with
  | some r' =>
    have hne : r' ≠ r := fun hc => h1 (by rw [hx, hc])
    simp [hx, hne]
  | none =>
    rw [hkeys, firstHit_cons]
    cases hk0 : mlookup d ('*' :: '.' :: 'a' :: '.' :: 'b' :: '.' :: s) with
    | some r0 =>
      have hne : r0 ≠ r := fun hc => h2 (by rw [hk0, hc])
      simp [hk0, hne]
    | none =>
      rw [firstHit_cons]
      cases hk1 : mlookup d ('*' :: '.' :: 'b' :: '.' :: s) with
      | some r1 =>
        have hne : r1 ≠ r := fun hc => h3 (by rw [hk1, hc])
        simp [hk1, hne]
      | none =>
        rw [show (3 : Nat) = 2 + 1 from rfl, triedWildcards_succ_eq, firstHit_cons, hw]
        simp

/-- Witness for C5 with suffix `x`, table `{*.x ↦ r}`. -/
theorem wildcard_broadest_iff_no_more_specific_witness :
    (lowerStr (strOf "x") = strOf "x" ∧
      mlookup [('*' :: '.' :: strOf "x", (⟨strOf "w", strOf "*.x", strOf "svc"⟩ : RtEntry))]
        ('*' :: '.' :: strOf "x") = some ⟨strOf "w", strOf "*.x", strOf "svc"⟩ ∧
      mlookup [('*' :: '.' :: strOf "x", (⟨strOf "w", strOf "*.x", strOf "svc"⟩ : RtEntry))]
        ('a' :: '.' :: 'b' :: '.' :: strOf "x") ≠ some ⟨strOf "w", strOf "*.x", strOf "svc"⟩ ∧
      mlookup [('*' :: '.' :: strOf "x", (⟨strOf "w", strOf "*.x", strOf "svc"⟩ : RtEntry))]
        ('*' :: '.' :: 'a' :: '.' :: 'b' :: '.' :: strOf "x")
          ≠ some ⟨strOf "w", strOf "*.x", strOf "svc"⟩ ∧
      mlookup [('*' :: '.' :: strOf "x", (⟨strOf "w", strOf "*.x", strOf "svc"⟩ : RtEntry))]
        ('*' :: '.' :: 'b' :: '.' :: strOf "x") ≠ some ⟨strOf "w", strOf "*.x", strOf "svc"⟩) ∧
    (findRouteForHost ('a' :: '.' :: 'b' :: '.' :: strOf "x")
        [('*' :: '.' :: strOf "x", (⟨strOf "w", strOf "*.x", strOf "svc"⟩ : RtEntry))]
      = some ⟨strOf "w", strOf "*.x", strOf "svc"⟩ ↔
      (mlookup [('*' :: '.' :: strOf "x", (⟨strOf "w", strOf "*.x", strOf "svc"⟩ : RtEntry))]
        ('a' :: '.' :: 'b' :: '.' :: strOf "x") = none ∧
       mlookup [('*' :: '.' :: strOf "x", (⟨strOf "w", strOf "*.x", strOf "svc"⟩ : RtEntry))]
        ('*' :: '.' :: 'a' :: '.' :: 'b' :: '.' :: strOf "x") = none ∧
       mlookup [('*' :: '.' :: strOf "x", (⟨strOf "w", strOf "*.x", strOf "svc"⟩ : RtEntry))]
        ('*' :: '.' :: 'b' :: '.' :: strOf "x") = none)) :=
  ⟨⟨by decide, by decide, by decide, by decide, by decide⟩,
    wildcard_broadest_iff_no_more_specific _ (strOf "x") _
      (by decide) (by decide) (by decide) (by decide) (by decide)⟩

theorem take_24_append {x y : List Nat} (hx : x.length = 24) : (x ++ y).take 24 = x := by
  rw [← hx, List.take_left]

theorem drop_24_append {x y : List Nat} (hx : x.length = 24) : (x ++ y).drop 24 = y := by
  rw [← hx, List.drop_left]

theorem not_lt_24_append {x y : List Nat} (hx : x.length = 24) :
    ¬ (x ++ y).length < 24 := by
  rw [List.length_append, hx]
  omega

/-- C6: the sticky-cookie codec round-trips and fails closed. Sealing a
backend address (24-byte nonce, authenticated box, encoded `nonce ‖ box`)
and opening it under the same key yields the address with no new cookie;
opening under a different key, opening with an altered nonce, a cookie whose
decoded payload is shorter than the nonce, and any cookie whose box does not
authenticate all fall back to a fresh pick (`pickNewBackendSticky`). -/
theorem sticky_cookie_roundtrip_fail_closed {V : Type} (sb : SecretBox) (b : ByteCodec V)
    (key key2 nonce nonce2 : List Nat) (addr : Str) (addrs : List Str) (rnd : Nat)
    (vT vA : V) (dataT dataA : List Nat)
    (hn : nonce.length = 24)
    (hmem : addr ∈ addrs)
    (hk2 : key2 ≠ key)
    (hn2 : nonce2.length = 24) (hnne : nonce2 ≠ nonce)
    (hT : b.decode vT = some dataT) (hTlen : dataT.length < 24)
    (hA : b.decode vA = some dataA) (hAlen : ¬ dataA.length < 24)
    (hAfail : sb.openBox key (dataA.take 24) (dataA.drop 24) = none) :
    pickBackendSticky sb b key nonce addrs rnd
        (some (b.encode (nonce ++ sb.boxSeal key nonce (bytesOf addr)))) = (addr, none) ∧
    pickBackendSticky sb b key2 nonce addrs rnd
        (some (b.encode (nonce ++ sb.boxSeal key nonce (bytesOf addr))))
      = pickNewBackendSticky sb b key2 nonce addrs rnd ∧
    pickBackendSticky sb b key nonce addrs rnd
        (some (b.encode (nonce2 ++ sb.boxSeal key nonce (bytesOf addr))))
      = pickNewBackendSticky sb b key nonce addrs rnd ∧
    pickBackendSticky sb b key nonce addrs rnd (some vT)
      = pickNewBackendSticky sb b key nonce addrs rnd ∧
    pickBackendSticky sb b key nonce addrs rnd (some vA)
      = pickNewBackendSticky sb b key nonce addrs rnd := by
  refine ⟨?_, ?_, ?_, ?_, ?_⟩
  · -- round trip
    simp only [pickBackendSticky, b.decode_encode]
    rw [if_neg (not_lt_24_append hn)]
    rw [take_24_append hn, drop_24_append hn]
    rw [sb.open_seal]
    simp [strOfBytes_bytesOf, hmem]
  · -- foreign key fails closed
    simp only [pickBackendSticky, b.decode_encode]
    rw [if_neg (not_lt_24_append hn)]
    rw [take_24_append hn, drop_24_append hn]
    cases ho : sb.openBox key2 nonce (sb.boxSeal key nonce (bytesOf addr)) with
    | none => rfl
    | some m =>
      have hc := sb.seal_of_open _ _ _ _ ho
      exact absurd (sb.seal_binds _ _ _ _ _ _ hc).1.symm hk2
  · -- altered nonce fails closed
    simp only [pickBackendSticky, b.decode_encode]
    rw [if_neg (not_lt_24_append hn2)]
    rw [take_24_append hn2, drop_24_append hn2]
    cases ho : sb.openBox key nonce2 (sb.boxSeal key nonce (bytesOf addr)) with
    | none => rfl
    | some m =>
      have hc := sb.seal_of_open _ _ _ _ ho
      exact absurd (sb.seal_binds _ _ _ _ _ _ hc).2.symm hnne
  · -- truncated payload fails closed
    simp only [pickBackendSticky, hT]
    rw [if_pos hTlen]
  · -- unauthenticated box fails closed
    simp only [pickBackendSticky, hA]
    rw [if_neg hAlen, hAfail]

/-- Concrete 32-byte key for witnesses. -/
def wKey : List Nat := List.replicate 32 1

/-- A different concrete 32-byte key. -/
def wKey2 : List Nat := List.replicate 32 2

/-- Concrete 24-byte nonce for witnesses. -/
def wNonce : List Nat := List.replicate 24 0

/-- A different concrete 24-byte nonce. -/
def wNonce2 : List Nat := List.replicate 24 3

/-- Concrete backend address for witnesses. -/
def wAddr : Str := strOf "10.0.0.1:80"

/-- Concrete `Addrs()` snapshot for witnesses. -/
def wAddrs : List Str := [strOf "10.0.0.1:80"]

/-- Decoded payload shorter than the 24-byte nonce (truncated cookie). -/
def wDataT : List Nat := [9]

/-- Decoded payload whose box fails to authenticate under `toyBox`. -/
def wDataA : List Nat := List.replicate 24 5

/-- Witness for C6 under `toyBox`/`toyCodec` at concrete keys, nonces,
address and cookies. -/
theorem sticky_cookie_roundtrip_fail_closed_witness :
    (wNonce.length = 24 ∧ wAddr ∈ wAddrs ∧ wKey2 ≠ wKey ∧
      wNonce2.length = 24 ∧ wNonce2 ≠ wNonce ∧
      toyCodec.decode (some wDataT) = some wDataT ∧ wDataT.length < 24 ∧
      toyCodec.decode (some wDataA) = some wDataA ∧ ¬ wDataA.length < 24 ∧
      toyBox.openBox wKey (wDataA.take 24) (wDataA.drop 24) = none) ∧
    (pickBackendSticky toyBox toyCodec wKey wNonce wAddrs 0
        (some (toyCodec.encode (wNonce ++ toyBox.boxSeal wKey wNonce (bytesOf wAddr))))
      = (wAddr, none) ∧
    pickBackendSticky toyBox toyCodec wKey2 wNonce wAddrs 0
        (some (toyCodec.encode (wNonce ++ toyBox.boxSeal wKey wNonce (bytesOf wAddr))))
      = pickNewBackendSticky toyBox toyCodec wKey2 wNonce wAddrs 0 ∧
    pickBackendSticky toyBox toyCodec wKey wNonce wAddrs 0
        (some (toyCodec.encode (wNonce2 ++ toyBox.boxSeal wKey wNonce (bytesOf wAddr))))
      = pickNewBackendSticky toyBox toyCodec wKey wNonce wAddrs 0 ∧
    pickBackendSticky toyBox toyCodec wKey wNonce wAddrs 0 (some (some wDataT))
      = pickNewBackendSticky toyBox toyCodec wKey wNonce wAddrs 0 ∧
    pickBackendSticky toyBox toyCodec wKey wNonce wAddrs 0 (some (some wDataA))
      = pickNewBackendSticky toyBox toyCodec wKey wNonce wAddrs 0) :=
  ⟨⟨by decide, by decide, by decide, by decide, by decide, by decide, by decide,
      by decide, by decide, by decide⟩,
    sticky_cookie_roundtrip_fail_closed toyBox toyCodec wKey wKey2 wNonce wNonce2
      wAddr wAddrs 0 (some wDataT) (some wDataA) wDataT wDataA
      (by decide) (by decide) (by decide) (by decide) (by decide)
      (by decide) (by decide) (by decide) (by decide) (by decide)⟩

/-- C7: `pickBackendSticky` returns the cookie's decoded backend with no new
cookie exactly on the success path — a `_backend` cookie that decodes, is at
least nonce-length, authenticates, and decodes to an address in the current
`Addrs()` snapshot; in every other case (no cookie, undecodable cookie,
short payload, failed authentication, stale address) it falls back to
`pickNewBackendSticky`, which for a non-empty pool returns the random pick
together with a freshly sealed `_backend` cookie with path `/` and for an
empty pool returns no backend and no cookie. (`[] ∉ addrs`: real snapshots
contain no empty address.) -/
theorem pickBackendSticky_characterization {V : Type} (sb : SecretBox) (b : ByteCodec V)
    (key nonce : List Nat) (addrs : List Str) (rnd : Nat)
    (cookie : Option V) (v : V) (data res : List Nat)
    (hnil : [] ∉ addrs) :
    (cookie = some v → b.decode v = some data → ¬ data.length < 24 →
      sb.openBox key (data.take 24) (data.drop 24) = some res →
      strOfBytes res ∈ addrs →
      pickBackendSticky sb b key nonce addrs rnd cookie = (strOfBytes res, none)) ∧
    (cookie = none →
      pickBackendSticky sb b key nonce addrs rnd cookie
        = pickNewBackendSticky sb b key nonce addrs rnd) ∧
    (cookie = some v → b.decode v = none →
      pickBackendSticky sb b key nonce addrs rnd cookie
        = pickNewBackendSticky sb b key nonce addrs rnd) ∧
    (cookie = some v → b.decode v = some data → data.length < 24 →
      pickBackendSticky sb b key nonce addrs rnd cookie
        = pickNewBackendSticky sb b key nonce addrs rnd) ∧
    (cookie = some v → b.decode v = some data → ¬ data.length < 24 →
      sb.openBox key (data.take 24) (data.drop 24) = none →
      pickBackendSticky sb b key nonce addrs rnd cookie
        = pickNewBackendSticky sb b key nonce addrs rnd) ∧
    (cookie = some v → b.decode v = some data → ¬ data.length < 24 →
      sb.openBox key (data.take 24) (data.drop 24) = some res →
      strOfBytes res ∉ addrs →
      pickBackendSticky sb b key nonce addrs rnd cookie
        = pickNewBackendSticky sb b key nonce addrs rnd) ∧
    (addrs ≠ [] →
      pickNewBackendSticky sb b key nonce addrs rnd =
        (pickBackend addrs rnd,
         some ⟨strOf "_backend",
               b.encode (nonce ++ sb.boxSeal key nonce (bytesOf (pickBackend addrs rnd))),
               strOf "/"⟩) ∧
      pickBackend addrs rnd ∈ addrs) ∧
    (addrs = [] → pickNewBackendSticky sb b key nonce addrs rnd = ([], none)) := by
  refine ⟨?_, ?_, ?_, ?_, ?_, ?_, ?_, ?_⟩
  · rintro rfl hd hl ho hm
    simp only [pickBackendSticky, hd]
    rw [if_neg hl, ho]
    simp [hm]
  · rintro rfl
    rfl
  · rintro rfl hd
    simp only [pickBackendSticky, hd]
  · rintro rfl hd hl
    simp only [pickBackendSticky, hd]
    rw [if_pos hl]
  · rintro rfl hd hl ho
    simp only [pickBackendSticky, hd]
    rw [if_neg hl, ho]
  · rintro rfl hd hl ho hm
    simp only [pickBackendSticky, hd]
    rw [if_neg hl, ho]
    simp [hm]
  · intro hne
    have hb := pickBackend_mem rnd hne
    have hbne : pickBackend addrs rnd ≠ [] := fun hc => hnil (hc ▸ hb)
    constructor
    · rw [pickNewBackendSticky]
      simp [hbne]
    · exact hb
  · rintro rfl
    exact pickNewBackendSticky_nil sb b key nonce rnd

/-- Decoded payload of a genuine witness cookie: nonce followed by the box
of the witness address. -/
def wData : List Nat := wNonce ++ toyBox.boxSeal wKey wNonce (bytesOf wAddr)

/-- Witness for C7 under `toyBox`/`toyCodec` at a genuine cookie for the
witness address. -/
theorem pickBackendSticky_characterization_witness :
    ([] ∉ wAddrs) ∧
    ((some (some wData) = some (some wData) → toyCodec.decode (some wData) = some wData →
      ¬ wData.length < 24 →
      toyBox.openBox wKey (wData.take 24) (wData.drop 24) = some (bytesOf wAddr) →
      strOfBytes (bytesOf wAddr) ∈ wAddrs →
      pickBackendSticky toyBox toyCodec wKey wNonce wAddrs 0 (some (some wData))
        = (strOfBytes (bytesOf wAddr), none)) ∧
    (some (some wData) = none →
      pickBackendSticky toyBox toyCodec wKey wNonce wAddrs 0 (some (some wData))
        = pickNewBackendSticky toyBox toyCodec wKey wNonce wAddrs 0) ∧
    (some (some wData) = some (some wData) → toyCodec.decode (some wData) = none →
      pickBackendSticky toyBox toyCodec wKey wNonce wAddrs 0 (some (some wData))
        = pickNewBackendSticky toyBox toyCodec wKey wNonce wAddrs 0) ∧
    (some (some wData) = some (some wData) → toyCodec.decode (some wData) = some wData →
      wData.length < 24 →
      pickBackendSticky toyBox toyCodec wKey wNonce wAddrs 0 (some (some wData))
        = pickNewBackendSticky toyBox toyCodec wKey wNonce wAddrs 0) ∧
    (some (some wData) = some (some wData) → toyCodec.decode (some wData) = some wData →
      ¬ wData.length < 24 →
      toyBox.openBox wKey (wData.take 24) (wData.drop 24) = none →
      pickBackendSticky toyBox toyCodec wKey wNonce wAddrs 0 (some (some wData))
        = pickNewBackendSticky toyBox toyCodec wKey wNonce wAddrs 0) ∧
    (some (some wData) = some (some wData) → toyCodec.decode (some wData) = some wData →
      ¬ wData.length < 24 →
      toyBox.openBox wKey (wData.take 24) (wData.drop 24) = some (bytesOf wAddr) →
      strOfBytes (bytesOf wAddr) ∉ wAddrs →
      pickBackendSticky toyBox toyCodec wKey wNonce wAddrs 0 (some (some wData))
        = pickNewBackendSticky toyBox toyCodec wKey wNonce wAddrs 0) ∧
    (wAddrs ≠ [] →
      pickNewBackendSticky toyBox toyCodec wKey wNonce wAddrs 0 =
        (pickBackend wAddrs 0,
         some ⟨strOf "_backend",
               toyCodec.encode (wNonce ++ toyBox.boxSeal wKey wNonce
                 (bytesOf (pickBackend wAddrs 0))),
               strOf "/"⟩) ∧
      pickBackend wAddrs 0 ∈ wAddrs) ∧
    (wAddrs = [] → pickNewBackendSticky toyBox toyCodec wKey wNonce wAddrs 0 = ([], none))) :=
  ⟨by decide,
    pickBackendSticky_characterization toyBox toyCodec wKey wNonce wAddrs 0
      (some (some wData)) (some wData) wData (bytesOf wAddr) (by decide)⟩

/-- C8: for every request, the router answers `404 Not Found` when
`findRouteForHost` yields no route for the request host, and
`503 Service Unavailable` when a route is found but its service's backend
address snapshot is empty (in both the sticky and the non-sticky branch). -/
theorem serve_404_on_miss_503_on_empty {V : Type} (sb : SecretBox) (b : ByteCodec V)
    (key nonce : List Nat) (rnd : Nat) (cookie : Option V)
    (domains : List (Str × VRoute)) (host : Str) (r : VRoute) :
    (findRouteForHost host domains = none →
      listenerServeHTTP sb b key nonce rnd cookie domains host = Resp.notFound) ∧
    (findRouteForHost host domains = some r → r.addrs = [] →
      listenerServeHTTP sb b key nonce rnd cookie domains host = Resp.unavailable) := by
  constructor
  · intro h
    simp [listenerServeHTTP, h]
  · intro h ha
    simp only [listenerServeHTTP, h]
    cases hs : r.sticky with
    | true => simp [serveRoute, hs, ha, pickBackendSticky_nil_fst]
    | false => simp [serveRoute, hs, ha, pickBackend]

/-- Witness for C8: table `{x ↦ {sticky: false, addrs: []}}`; host `y`
misses (404) and host `x` hits the empty-pool route (503). -/
theorem serve_404_on_miss_503_on_empty_witness :
    ((findRouteForHost (strOf "y") [(strOf "x", (⟨false, []⟩ : VRoute))] = none →
      listenerServeHTTP toyBox toyCodec wKey wNonce 0 none
        [(strOf "x", (⟨false, []⟩ : VRoute))] (strOf "y") = Resp.notFound) ∧
    (findRouteForHost (strOf "y") [(strOf "x", (⟨false, []⟩ : VRoute))]
        = some ⟨false, []⟩ →
      (⟨false, []⟩ : VRoute).addrs = [] →
      listenerServeHTTP toyBox toyCodec wKey wNonce 0 none
        [(strOf "x", (⟨false, []⟩ : VRoute))] (strOf "y") = Resp.unavailable)) ∧
    ((findRouteForHost (strOf "x") [(strOf "x", (⟨false, []⟩ : VRoute))] = none →
      listenerServeHTTP toyBox toyCodec wKey wNonce 0 none
        [(strOf "x", (⟨false, []⟩ : VRoute))] (strOf "x") = Resp.notFound) ∧
    (findRouteForHost (strOf "x") [(strOf "x", (⟨false, []⟩ : VRoute))]
        = some ⟨false, []⟩ →
      (⟨false, []⟩ : VRoute).addrs = [] →
      listenerServeHTTP toyBox toyCodec wKey wNonce 0 none
        [(strOf "x", (⟨false, []⟩ : VRoute))] (strOf "x") = Resp.unavailable)) :=
  ⟨serve_404_on_miss_503_on_empty toyBox toyCodec wKey wNonce 0 none
      [(strOf "x", ⟨false, []⟩)] (strOf "y") ⟨false, []⟩,
    serve_404_on_miss_503_on_empty toyBox toyCodec wKey wNonce 0 none
      [(strOf "x", ⟨false, []⟩)] (strOf "x") ⟨false, []⟩⟩

/-- C9: `OPTIONS` requests and requests to `/ping` bypass auth and answer
200; every other request is answered 401 exactly when its credentials —
the basic-auth password, or for `text/event-stream` clients with no basic
password the `?key=` query parameter — are missing or do not match the
configured (non-empty) key. -/
theorem muxHandler_auth_characterization (dec : Str → Option (List Nat))
    (authKey : Str) (req : AuthReq) (hkey : authKey ≠ []) :
    ((req.path = strOf "/ping" ∨ req.method = strOf "OPTIONS") →
      muxHandler dec authKey req = AuthResp.ok200) ∧
    (¬ (req.path = strOf "/ping" ∨ req.method = strOf "OPTIONS") →
      (muxHandler dec authKey req = AuthResp.unauthorized401 ↔
        (effPassword dec req = [] ∨ effPassword dec req ≠ authKey))) := by
  constructor
  · intro h
    simp [muxHandler, h]
  · intro h
    simp only [muxHandler, if_neg h]
    by_cases hp : effPassword dec req = authKey
    · rw [hp]
      simp only [ne_eq, not_true_eq_false, or_false, not_false_eq_true, and_true]
      simp [hkey]
    · have hcond : (effPassword dec req).length ≠ authKey.length ∨
          ¬(effPassword dec req = authKey) := Or.inr hp
      rw [if_pos hcond]
      simp [hp]

/-- Witness for C9: key `"k"`, a `GET /apps` request with no credentials is
401, and the same configuration answers 200 for `/ping`. -/
theorem muxHandler_auth_characterization_witness :
    ((strOf "k" : Str) ≠ []) ∧
    (((⟨strOf "GET", strOf "/apps", strOf "", strOf "", strOf ""⟩ : AuthReq).path
          = strOf "/ping" ∨
      (⟨strOf "GET", strOf "/apps", strOf "", strOf "", strOf ""⟩ : AuthReq).method
          = strOf "OPTIONS") →
      muxHandler (fun _ => none) (strOf "k")
        ⟨strOf "GET", strOf "/apps", strOf "", strOf "", strOf ""⟩ = AuthResp.ok200) ∧
    (¬ ((⟨strOf "GET", strOf "/apps", strOf "", strOf "", strOf ""⟩ : AuthReq).path
          = strOf "/ping" ∨
        (⟨strOf "GET", strOf "/apps", strOf "", strOf "", strOf ""⟩ : AuthReq).method
          = strOf "OPTIONS") →
      (muxHandler (fun _ => none) (strOf "k")
          ⟨strOf "GET", strOf "/apps", strOf "", strOf "", strOf ""⟩
            = AuthResp.unauthorized401 ↔
        (effPassword (fun _ => none)
            ⟨strOf "GET", strOf "/apps", strOf "", strOf "", strOf ""⟩ = [] ∨
         effPassword (fun _ => none)
            ⟨strOf "GET", strOf "/apps", strOf "", strOf "", strOf ""⟩ ≠ strOf "k"))) :=
  have h := muxHandler_auth_characterization (fun _ => none) (strOf "k")
    ⟨strOf "GET", strOf "/apps", strOf "", strOf "", strOf ""⟩ (by decide)
  ⟨by decide, h.1, h.2⟩
